import Mathlib

/-!
Verification of the SIL-ML semantic codec
(`sil-ml/examples/sil_ml_python.py`).

The development shallowly embeds the Python module: the 16-entry semantic
layer registry, the linear tanh codec, the transform pipeline and the
configuration-driven orchestrator.  The native `_sil_core` value types
(`ByteSil`, `SilState`) are not part of the Python sources; they are
modelled from the specification (§4.1, §4.2), which describes them as an
immutable 8-bit unit and an immutable 16-slot container with persistent
single-slot update.  Real-valued NumPy arithmetic is embedded as `ℝ`;
Python's `int()` truncation of a nonnegative real is `Int.floor`; NumPy's
`np.clip` is `max lo (min x hi)`; a NumPy call that raises on degenerate
input (`np.max` of an empty array) is modelled with `Option`.
-/

set_option maxHeartbeats 1000000

/-- The five semantic layer categories (`SemanticCategory` enum). -/
inductive SemanticCategory where
  | PERCEPTION
  | PROCESSING
  | INTERACTION
  | EMERGENCE
  | META
deriving DecidableEq, Repr, Fintype

/-- Error taxonomy of the spec (§7).  The Python module itself never raises
these; they appear only in the `Except`-typed embedding of operations the
spec describes as fallible. -/
inductive SilError where
  | UnknownLayer
  | IndexOutOfRange
deriving DecidableEq, Repr

/-- One registry entry: `(index, display name, category)`, exactly the
tuples stored as `SemanticLayer` class attributes. -/
def LayerEntry := ℕ × String × SemanticCategory
deriving DecidableEq

/-- The `SemanticLayer.LAYERS` lookup table: keys in insertion order 0–15,
each mapped to its entry tuple, as in the Python dict literal. -/
def SemanticLayer.LAYERS : List (ℕ × LayerEntry) :=
  [(0, (0, "Photonic", .PERCEPTION)),
   (1, (1, "Acoustic", .PERCEPTION)),
   (2, (2, "Olfactory", .PERCEPTION)),
   (3, (3, "Gustatory", .PERCEPTION)),
   (4, (4, "Dermic", .PERCEPTION)),
   (5, (5, "Electronic", .PROCESSING)),
   (6, (6, "Psychomotor", .PROCESSING)),
   (7, (7, "Environmental", .PROCESSING)),
   (8, (8, "Cybernetic", .INTERACTION)),
   (9, (9, "Geopolitical", .INTERACTION)),
   (10, (10, "Cosmopolitical", .INTERACTION)),
   (11, (11, "Synergic", .EMERGENCE)),
   (12, (12, "Quantum", .EMERGENCE)),
   (13, (13, "Superposition", .META)),
   (14, (14, "Entanglement", .META)),
   (15, (15, "Collapse", .META))]

/-- `SemanticLayer.get(layer_idx)`: the body is `LAYERS.get(layer_idx)`,
Python's non-raising dict lookup.  A Python call either raises or returns,
so the embedding returns `Except SilError (Option LayerEntry)`; since
`dict.get` never raises, every result is `Except.ok`, carrying `none`
exactly when the key is absent (Python `None`). -/
def SemanticLayer.get (layer_idx : ℕ) : Except SilError (Option LayerEntry) :=
  Except.ok (((SemanticLayer.LAYERS).find? (fun e => e.1 == layer_idx)).map (fun e => e.2))

/-- `SemanticLayer.by_category(category)`: the dict comprehension
`[idx for idx, (_, _, cat) in LAYERS.items() if cat == category]`,
iterating the dict in insertion order. -/
def SemanticLayer.by_category (category : SemanticCategory) : List ℕ :=
  ((SemanticLayer.LAYERS).filter (fun e => e.2.2.2 == category)).map (fun e => e.1)

/-- Modelled from the spec (§4.1): the native `_sil_core.ByteSil` byte
unit, an immutable 8-bit quantized value.  Only `from_u8`/`to_u8` behavior
is pinned down by the spec; the numeric curves of `pow` and `mix` are an
explicitly flagged open question, so concrete saturating instantiations
are chosen below and no theorem in this file depends on their values. -/
structure ByteSil where
  val : ℕ
deriving DecidableEq, Repr

/-- Modelled from the spec: `from_u8` constructs the unit from a raw byte;
reduction mod 256 keeps the 8-bit closure invariant for arguments outside
0–255 (all call sites in the module pass already-clamped bytes). -/
def ByteSil.from_u8 (n : ℕ) : ByteSil :=
  ⟨n % 256⟩

/-- Modelled from the spec: `to_u8` returns the stored raw byte. -/
def ByteSil.to_u8 (b : ByteSil) : ℕ :=
  b.val

/-- Modelled from the spec: `pow` — a monotonic saturating remap whose
exact curve is unobservable from the sources (spec §4.1 open question); a
concrete saturating power is chosen.  No claim theorem depends on it. -/
def ByteSil.pow (b : ByteSil) (n : ℕ) : ByteSil :=
  ⟨min 255 (b.val ^ n)⟩

/-- Modelled from the spec: `mix` — a symmetric blend whose exact curve is
unobservable from the sources (spec §4.1 open question); the arithmetic
midpoint is chosen.  No claim theorem depends on it. -/
def ByteSil.mix (a b : ByteSil) : ByteSil :=
  ⟨(a.val + b.val) / 2⟩

/-- Modelled from the spec (§4.2): the native `_sil_core.SilState`, an
immutable container of exactly 16 byte units, one per layer index. -/
structure SilState where
  layers : Fin 16 → ByteSil

instance : DecidableEq SilState :=
  fun a b =>
    decidable_of_iff (a.layers = b.layers) (by cases a; cases b; simp)

theorem SilState.ext_layers {a b : SilState}
    (h : ∀ i, a.layers i = b.layers i) : a = b := by
  cases a; cases b
  simp only [SilState.mk.injEq]
  funext i
  exact h i

/-- Modelled from the spec: `vacuum()` — all 16 slots hold raw byte 0. -/
def SilState.vacuum : SilState :=
  ⟨fun _ => ByteSil.from_u8 0⟩

/-- Modelled from the spec: `neutral()` — all 16 slots hold raw byte 128. -/
def SilState.neutral : SilState :=
  ⟨fun _ => ByteSil.from_u8 128⟩

/-- Modelled from the spec: `get_layer(index)` for an in-range index
returns the byte at that slot. -/
def SilState.get_layer (s : SilState) (i : Fin 16) : ByteSil :=
  s.layers i

/-- Modelled from the spec: `with_layer(index, value)` for an in-range
index returns a new state with slot `index` replaced, never mutating the
receiver (persistent update). -/
def SilState.with_layer (s : SilState) (i : Fin 16) (b : ByteSil) : SilState :=
  ⟨Function.update s.layers i b⟩

theorem SilState.get_with_layer_same (s : SilState) (i : Fin 16) (b : ByteSil) :
    (s.with_layer i b).get_layer i = b := by
  simp [SilState.with_layer, SilState.get_layer]

theorem SilState.get_with_layer_ne (s : SilState) (i j : Fin 16) (b : ByteSil)
    (h : i ≠ j) : (s.with_layer i b).get_layer j = s.get_layer j := by
  simp [SilState.with_layer, SilState.get_layer, Function.update_noteq h.symm]

theorem SilState.with_layer_get_self (s : SilState) (i : Fin 16) :
    s.with_layer i (s.get_layer i) = s := by
  cases s
  simp [SilState.with_layer, SilState.get_layer, Function.update_eq_self]

/-- NumPy's `np.clip(x, lo, hi)`: `x` forced into `[lo, hi]`. -/
def npClip {α : Type} [LinearOrder α] (x lo hi : α) : α :=
  max lo (min x hi)

/-- NumPy's `np.arctanh`, the real inverse hyperbolic tangent
`arctanh x = log ((1 + x) / (1 - x)) / 2` (no `artanh` is available in
the ambient library, so the standard logarithmic form is used). -/
noncomputable def arctanh (x : ℝ) : ℝ :=
  Real.log ((1 + x) / (1 - x)) / 2

/-- The body of the `LinearEncoder.encode` loop for one feature value:
`bounded = tanh(val)`; `byte_val = int((bounded + 1.0) * 127.5)` — Python's
`int()` truncates toward zero, and the argument is nonnegative because
`tanh > −1`, so this is the floor; `byte_val = np.clip(byte_val, 0, 255)`;
`ByteSil.from_u8(byte_val)`. -/
noncomputable def LinearEncoder.featureByte (val : ℝ) : ByteSil :=
  ByteSil.from_u8 (npClip (⌊(Real.tanh val + 1.0) * 127.5⌋ : ℤ) 0 255).toNat

/-- `LinearEncoder.encode(features)`: start from `vacuum()` and, for each
`i in range(min(16, len(features)))`, set slot `i` to the encoded byte of
`features[i]` via `with_layer`.  The loop index always satisfies `i < 16`
and `i < len(features)`, so the guard is never false and `getD i 0`
reads exactly `features[i]`. -/
noncomputable def LinearEncoder.encode (features : List ℝ) : SilState :=
  (List.range (min 16 features.length)).foldl
    (fun state i =>
      if h : i < 16 then
        state.with_layer ⟨i, h⟩ (LinearEncoder.featureByte (features.getD i 0))
      else state)
    SilState.vacuum

/-- The body of the `LinearEncoder.decode` loop for one slot:
`byte_val = float(byte_obj.to_u8())`; `normalized = byte_val / 127.5 - 1.0`;
`clipped = np.clip(normalized, -0.999, 0.999)`; `np.arctanh(clipped)`. -/
noncomputable def LinearEncoder.slotValue (byte_obj : ByteSil) : ℝ :=
  arctanh (npClip (((byte_obj.to_u8 : ℝ)) / 127.5 - 1.0) (-0.999) 0.999)

/-- `LinearEncoder.decode(state)`: start from `np.zeros(16)` and, for each
`i in range(16)`, write the decoded value of slot `i` at position `i`. -/
noncomputable def LinearEncoder.decode (state : SilState) : List ℝ :=
  (List.range 16).foldl
    (fun features i =>
      if h : i < 16 then
        features.set i (LinearEncoder.slotValue (state.get_layer ⟨i, h⟩))
      else features)
    (List.replicate 16 0)

/-- The `errors` array inside `LinearEncoder.measure_fidelity`:
`np.abs(features[:min(len(features), 16)] - recovered[:min(len(features), 16)])`
where `recovered = decode(encode(features))`. -/
noncomputable def LinearEncoder.fidelityErrors (features : List ℝ) : List ℝ :=
  (List.range (min features.length 16)).map
    (fun i => |features.getD i 0 -
      (LinearEncoder.decode (LinearEncoder.encode features)).getD i 0|)

/-- `LinearEncoder.measure_fidelity(features)`: round-trip, then the
elementwise absolute differences over the overlapping length
(`fidelityErrors`); `np.mean` is sum over length and `np.max` is the
maximum of the array.  `np.max` raises `ValueError` on an empty array, so
the embedding returns `Option`: `none` models that exception. -/
noncomputable def LinearEncoder.measure_fidelity (features : List ℝ) :
    Option (ℝ × ℝ) :=
  let errors := LinearEncoder.fidelityErrors features
  match errors.max? with
  | none => none
  | some mx => some (errors.sum / (errors.length : ℝ), mx)

/-- `TransformPipeline.perception()`: `[(i, "identity") for i in range(5)]`. -/
def TransformPipeline.perception : List (ℕ × String) :=
  (List.range 5).map (fun i => (i, "identity"))

/-- `TransformPipeline.processing()`. -/
def TransformPipeline.processing : List (ℕ × String) :=
  [(5, "power_1"), (6, "power_1"), (7, "mix_neutral")]

/-- `TransformPipeline.interaction()`. -/
def TransformPipeline.interaction : List (ℕ × String) :=
  [(8, "mix_neutral"), (9, "mix_neutral"), (10, "mix_neutral")]

/-- `TransformPipeline.emergence()`. -/
def TransformPipeline.emergence : List (ℕ × String) :=
  [(11, "power_2"), (12, "power_3")]

/-- `TransformPipeline.meta()`. -/
def TransformPipeline.meta : List (ℕ × String) :=
  [(13, "power_2"), (14, "power_2"), (15, "identity")]

/-- `TransformPipeline.full_semantic()`: concatenation of the five group
recipes in category order. -/
def TransformPipeline.full_semantic : List (ℕ × String) :=
  TransformPipeline.perception ++ TransformPipeline.processing ++
    TransformPipeline.interaction ++ TransformPipeline.emergence ++
    TransformPipeline.meta

/-- The string-keyed transform dispatch inside `TransformPipeline.apply`:
`identity`, `power_1/2/3`, `mix_neutral` against `from_u8(128)`, and the
final `else` branch returning the byte unchanged. -/
def TransformPipeline.dispatch (transform_name : String) (byte_obj : ByteSil) :
    ByteSil :=
  if transform_name = "identity" then byte_obj
  else if transform_name = "power_1" then byte_obj.pow 1
  else if transform_name = "power_2" then byte_obj.pow 2
  else if transform_name = "power_3" then byte_obj.pow 3
  else if transform_name = "mix_neutral" then
    byte_obj.mix (ByteSil.from_u8 128)
  else byte_obj

/-- `TransformPipeline.apply(state, transforms)`: a left fold over the
recipe; entries with `layer_idx >= 16` are skipped (`continue`), otherwise
the current byte is read, dispatched on the transform name and written
back via `with_layer`.  Recipe indices are embedded as naturals. -/
def TransformPipeline.apply (state : SilState)
    (transforms : List (ℕ × String)) : SilState :=
  transforms.foldl
    (fun result p =>
      if h : p.1 < 16 then
        result.with_layer ⟨p.1, h⟩
          (TransformPipeline.dispatch p.2 (result.get_layer ⟨p.1, h⟩))
      else result)
    state

/-- `MlPipeline(config)`: the orchestrator stores its configuration string
at construction and never changes it. -/
structure MlPipeline where
  config : String

/-- `MlPipeline.encode(features)`: plain `LinearEncoder.encode`, then the
configuration-selected recipe; the final `else` branch returns the plain
encoding for any unrecognized configuration. -/
noncomputable def MlPipeline.encode (p : MlPipeline) (features : List ℝ) :
    SilState :=
  let state := LinearEncoder.encode features
  if p.config = "pure" then state
  else if p.config = "with_processing" then
    TransformPipeline.apply state TransformPipeline.processing
  else if p.config = "full_semantic" then
    TransformPipeline.apply state TransformPipeline.full_semantic
  else state

/-! Helper lemmas characterizing the loop folds. -/

theorem foldl_with_layer_range (g : ℕ → ByteSil) (s : SilState) :
    ∀ (n : ℕ), n ≤ 16 → ∀ (j : Fin 16),
      (((List.range n).foldl
        (fun st i => if h : i < 16 then st.with_layer ⟨i, h⟩ (g i) else st)
        s).get_layer j)
        = if j.val < n then g j.val else s.get_layer j := by
  intro n
  induction n with
  | zero => intro _ j; simp
  | succ m ih =>
    intro hm j
    rw [List.range_succ, List.foldl_append]
    have hm16 : m < 16 := hm
    simp only [List.foldl_cons, List.foldl_nil, dif_pos hm16]
    by_cases hj : j.val = m
    · have : (⟨m, hm16⟩ : Fin 16) = j := by
        apply Fin.ext; simp [hj]
      rw [this, SilState.get_with_layer_same]
      simp [hj]
    · rw [SilState.get_with_layer_ne _ _ _ _ (by simp [Fin.ext_iff, hj]; omega)]
      rw [ih (by omega) j]
      by_cases hlt : j.val < m
      · rw [if_pos hlt, if_pos (by omega)]
      · rw [if_neg hlt, if_neg (by omega)]

theorem encode_get_layer (features : List ℝ) (j : Fin 16) :
    (LinearEncoder.encode features).get_layer j =
      if j.val < features.length then
        LinearEncoder.featureByte (features.getD j.val 0)
      else ByteSil.from_u8 0 := by
  unfold LinearEncoder.encode
  rw [foldl_with_layer_range
    (fun i => LinearEncoder.featureByte (features.getD i 0))
    SilState.vacuum (min 16 features.length) (min_le_left 16 features.length) j]
  have hj : j.val < 16 := j.isLt
  by_cases h : j.val < features.length
  · rw [if_pos (by omega), if_pos h]
  · rw [if_neg (by omega), if_neg h]
    rfl

theorem foldl_set_range (g : (i : ℕ) → i < 16 → ℝ) :
    ∀ (n : ℕ), n ≤ 16 → ∀ (acc : List ℝ), acc.length = 16 →
      (((List.range n).foldl
        (fun features i => if h : i < 16 then features.set i (g i h) else features)
        acc).length = 16 ∧
       ∀ (j : ℕ) (hj : j < 16),
        ((List.range n).foldl
          (fun features i => if h : i < 16 then features.set i (g i h) else features)
          acc)[j]? = if j < n then some (g j hj) else acc[j]?) := by
  intro n
  induction n with
  | zero => intro _ acc hacc; simpa using hacc
  | succ m ih =>
    intro hm acc hacc
    have hm16 : m < 16 := hm
    rw [List.range_succ, List.foldl_append]
    obtain ⟨ihlen, ihget⟩ := ih (by omega) acc hacc
    simp only [List.foldl_cons, List.foldl_nil, dif_pos hm16]
    constructor
    · rw [List.length_set, ihlen]
    · intro j hj
      by_cases hjm : j = m
      · subst hjm
        rw [List.getElem?_set_eq_of_lt _ (by rw [ihlen]; omega), if_pos (by omega)]
      · rw [List.getElem?_set_ne (by omega)]
        rw [ihget j hj]
        by_cases hlt : j < m
        · rw [if_pos hlt, if_pos (by omega)]
        · rw [if_neg hlt, if_neg (by omega)]

theorem decode_spec (state : SilState) :
    (LinearEncoder.decode state).length = 16 ∧
    ∀ (j : ℕ) (hj : j < 16),
      (LinearEncoder.decode state)[j]? =
        some (LinearEncoder.slotValue (state.get_layer ⟨j, hj⟩)) := by
  have h := foldl_set_range
    (fun i hi => LinearEncoder.slotValue (state.get_layer ⟨i, hi⟩))
    16 (le_refl 16) (List.replicate 16 0) (by simp)
  refine ⟨h.1, fun j hj => ?_⟩
  have hv := h.2 j hj
  rw [if_pos hj] at hv
  exact hv

theorem apply_get_layer_not_named (recipe : List (ℕ × String)) :
    ∀ (state : SilState) (j : Fin 16),
      (∀ p ∈ recipe, p.1 < 16 → p.1 ≠ j.val) →
      (TransformPipeline.apply state recipe).get_layer j = state.get_layer j := by
  induction recipe with
  | nil => intro state j _; rfl
  | cons p ps ih =>
    intro state j hj
    have hps : ∀ q ∈ ps, q.1 < 16 → q.1 ≠ j.val :=
      fun q hq => hj q (List.mem_cons_of_mem p hq)
    simp only [TransformPipeline.apply, List.foldl_cons]
    by_cases hp : p.1 < 16
    · rw [dif_pos hp]
      have step := ih (state.with_layer ⟨p.1, hp⟩
        (TransformPipeline.dispatch p.2 (state.get_layer ⟨p.1, hp⟩))) j hps
      refine Eq.trans step ?_
      exact SilState.get_with_layer_ne _ _ _ _
        (fun hEq => hj p (List.mem_cons_self p ps) hp (congrArg Fin.val hEq))
    · rw [dif_neg hp]
      exact ih state j hps

/-! Claim theorems. -/

/-- C1 (amended): for every feature sequence, `encode` starts from the
all-zero vacuum state and, for each position `i < min(16, len(features))`,
sets slot `i` via `with_layer` to the byte obtained by truncating
(flooring) `(tanh(features[i]) + 1) * 127.5` — Python's `int()`, not
`round` — clamped to `[0, 255]`. -/
theorem encode_slot_is_floor_byte (features : List ℝ) (i : Fin 16)
    (h : i.val < features.length) :
    (LinearEncoder.encode features).get_layer i =
      ByteSil.from_u8
        (npClip (⌊(Real.tanh (features[i.val]) + 1.0) * 127.5⌋ : ℤ) 0 255).toNat := by
  rw [encode_get_layer, if_pos h]
  simp [LinearEncoder.featureByte, List.getD_eq_getElem?_getD,
    List.getElem?_eq_getElem h]

/-- Witness for C1's theorem at the one-element feature list `[0]`. -/
theorem encode_slot_is_floor_byte_witness :
    ((0 : Fin 16).val < ([(0 : ℝ)]).length) ∧
    (LinearEncoder.encode [(0 : ℝ)]).get_layer 0 =
      ByteSil.from_u8
        (npClip (⌊(Real.tanh ((0 : ℝ)) + 1.0) * 127.5⌋ : ℤ) 0 255).toNat :=
  ⟨by norm_num, encode_slot_is_floor_byte [(0 : ℝ)] 0 (by norm_num)⟩

/-- C1 counterexample: at feature value 0 the code stores byte
`int((tanh 0 + 1) * 127.5) = int(127.5) = 127`, while the claim's
`round((tanh 0 + 1) * 127.5) = round(127.5) = 128`; so the claimed
rounded byte differs from the stored one. -/
theorem encode_slot_round_counterexample :
    (LinearEncoder.encode [(0 : ℝ)]).get_layer 0 = ByteSil.from_u8 127 ∧
    ByteSil.from_u8
        (npClip (round ((Real.tanh ((0 : ℝ)) + 1.0) * 127.5)) 0 255).toNat =
      ByteSil.from_u8 128 ∧
    (LinearEncoder.encode [(0 : ℝ)]).get_layer 0 ≠
      ByteSil.from_u8
        (npClip (round ((Real.tanh ((0 : ℝ)) + 1.0) * 127.5)) 0 255).toNat := by
  have htanh : Real.tanh (0 : ℝ) = 0 := Real.tanh_zero
  have harg : (Real.tanh (0 : ℝ) + 1.0) * 127.5 = (127.5 : ℝ) := by
    rw [htanh]; norm_num
  have hfloor : (⌊(127.5 : ℝ)⌋ : ℤ) = 127 := by
    apply Int.floor_eq_iff.mpr
    constructor <;> norm_num
  have hround : round ((127.5 : ℝ)) = 128 := by
    rw [round_eq]
    have : (127.5 : ℝ) + 1 / 2 = 128 := by norm_num
    rw [this]
    apply Int.floor_eq_iff.mpr
    constructor <;> norm_num
  have h1 : (LinearEncoder.encode [(0 : ℝ)]).get_layer 0 = ByteSil.from_u8 127 := by
    rw [encode_get_layer, if_pos (by norm_num)]
    show LinearEncoder.featureByte ((0 : ℝ)) = ByteSil.from_u8 127
    simp only [LinearEncoder.featureByte]
    rw [harg, hfloor]
    decide
  have h2 : ByteSil.from_u8
      (npClip (round ((Real.tanh ((0 : ℝ)) + 1.0) * 127.5)) 0 255).toNat =
      ByteSil.from_u8 128 := by
    rw [harg, hround]
    rfl
  exact ⟨h1, h2, by rw [h1, h2]; decide⟩

/-- C2: for every state, `decode` returns exactly 16 real values, and the
value at slot `i` is `arctanh` of the raw byte mapped through
`byte/127.5 − 1` and clamped into `[−0.999, 0.999]`. -/
theorem decode_length_and_slot_values (state : SilState) :
    (LinearEncoder.decode state).length = 16 ∧
    ∀ i : Fin 16,
      (LinearEncoder.decode state)[i.val]? =
        some (arctanh (npClip (((state.get_layer i).to_u8 : ℝ) / 127.5 - 1.0)
          (-0.999) 0.999)) := by
  obtain ⟨hlen, hval⟩ := decode_spec state
  refine ⟨hlen, fun i => ?_⟩
  have hv := hval i.val i.isLt
  simpa [LinearEncoder.slotValue] using hv

/-- C7: feature positions beyond 16 are ignored — a list longer than 16
encodes identically to its first 16 elements — and for a shorter list
every slot from `len(features)` up to 15 keeps the vacuum byte 0. -/
theorem encode_truncation_padding (features : List ℝ) :
    (16 < features.length →
      LinearEncoder.encode features = LinearEncoder.encode (features.take 16)) ∧
    (∀ i : Fin 16, features.length ≤ i.val →
      (LinearEncoder.encode features).get_layer i = ByteSil.from_u8 0) := by
  constructor
  · intro hlong
    apply SilState.ext_layers
    intro j
    have hj1 : j.val < features.length := lt_trans j.isLt hlong
    have hj2 : j.val < (features.take 16).length := by
      rw [List.length_take]; exact lt_min j.isLt hj1
    show (LinearEncoder.encode features).get_layer j =
      (LinearEncoder.encode (features.take 16)).get_layer j
    rw [encode_get_layer, encode_get_layer, if_pos hj1, if_pos hj2]
    congr 1
    rw [List.getD_eq_getElem _ _ hj1, List.getD_eq_getElem _ _ hj2]
    exact (List.getElem_take _).symm
  · intro i hi
    rw [encode_get_layer, if_neg (by omega)]

/-- Witness for C7's theorem: a 17-element list for the truncation part and
the empty list (slot 2) for the padding part. -/
theorem encode_truncation_padding_witness :
    (16 < (List.replicate 17 (0 : ℝ)).length ∧
      LinearEncoder.encode (List.replicate 17 (0 : ℝ)) =
        LinearEncoder.encode ((List.replicate 17 (0 : ℝ)).take 16)) ∧
    (([] : List ℝ).length ≤ (2 : Fin 16).val ∧
      (LinearEncoder.encode ([] : List ℝ)).get_layer 2 = ByteSil.from_u8 0) :=
  ⟨⟨by norm_num,
    (encode_truncation_padding (List.replicate 17 (0 : ℝ))).1 (by norm_num)⟩,
   ⟨by norm_num,
    (encode_truncation_padding ([] : List ℝ)).2 2 (by norm_num)⟩⟩

theorem foldl_max_mem {α : Type} [LinearOrder α] (l : List α) :
    ∀ a : α, l.foldl max a ∈ a :: l := by
  induction l with
  | nil => intro a; simp
  | cons b t ih =>
    intro a
    simp only [List.foldl_cons]
    rcases List.mem_cons.mp (ih (max a b)) with hm | hm
    · rw [hm]
      rcases max_choice a b with hc | hc <;> rw [hc] <;> simp
    · simp [List.mem_cons.mpr (Or.inr (List.mem_cons.mpr (Or.inr hm)))]

theorem le_foldl_max {α : Type} [LinearOrder α] (l : List α) :
    ∀ a : α, a ≤ l.foldl max a ∧ ∀ x ∈ l, x ≤ l.foldl max a := by
  induction l with
  | nil => intro a; simp
  | cons b t ih =>
    intro a
    simp only [List.foldl_cons]
    obtain ⟨h1, h2⟩ := ih (max a b)
    refine ⟨le_trans (le_max_left a b) h1, ?_⟩
    intro x hx
    rcases List.mem_cons.mp hx with rfl | hxt
    · exact le_trans (le_max_right a x) h1
    · exact h2 x hxt

/-- C3 (amended): for every nonempty feature vector (of any length),
`measure_fidelity` returns a `(mean_error, max_error)` pair where the
errors are the elementwise absolute differences between input and decoded
output over the overlapping length `min(len(features), 16)`, the mean is
their sum divided by that length, and the max is a member of the error
list bounding every member.  (On the empty vector the code raises —
see the counterexample.) -/
theorem measure_fidelity_some_of_ne_nil (features : List ℝ)
    (h : features ≠ []) :
    ∃ mean mx,
      LinearEncoder.measure_fidelity features = some (mean, mx) ∧
      mean = (LinearEncoder.fidelityErrors features).sum /
        ((min features.length 16 : ℕ) : ℝ) ∧
      mx ∈ LinearEncoder.fidelityErrors features ∧
      ∀ e ∈ LinearEncoder.fidelityErrors features, e ≤ mx := by
  have hn : 0 < min features.length 16 := by
    have := List.length_pos.mpr h
    omega
  have hlen : (LinearEncoder.fidelityErrors features).length =
      min features.length 16 := by
    simp [LinearEncoder.fidelityErrors]
  obtain ⟨e, t, herr⟩ : ∃ e t, LinearEncoder.fidelityErrors features = e :: t := by
    cases hc : LinearEncoder.fidelityErrors features with
    | nil => rw [hc] at hlen; simp at hlen; omega
    | cons e t => exact ⟨e, t, rfl⟩
  refine ⟨(e :: t).sum / ((e :: t).length : ℝ), t.foldl max e, ?_, ?_, ?_, ?_⟩
  · unfold LinearEncoder.measure_fidelity
    rw [herr]
    rfl
  · rw [herr, ← hlen, herr]
  · rw [herr]
    exact foldl_max_mem t e
  · rw [herr]
    intro x hx
    rcases List.mem_cons.mp hx with rfl | hxt
    · exact (le_foldl_max t x).1
    · exact (le_foldl_max t e).2 x hxt

/-- Witness for C3's theorem at the one-element feature list `[0]`. -/
theorem measure_fidelity_some_witness :
    ([(0 : ℝ)] ≠ []) ∧
    ∃ mean mx,
      LinearEncoder.measure_fidelity [(0 : ℝ)] = some (mean, mx) ∧
      mean = (LinearEncoder.fidelityErrors [(0 : ℝ)]).sum /
        ((min ([(0 : ℝ)]).length 16 : ℕ) : ℝ) ∧
      mx ∈ LinearEncoder.fidelityErrors [(0 : ℝ)] ∧
      ∀ e ∈ LinearEncoder.fidelityErrors [(0 : ℝ)], e ≤ mx :=
  ⟨by simp, measure_fidelity_some_of_ne_nil [(0 : ℝ)] (by simp)⟩

/-- C3 counterexample: on the empty vector the overlapping length is 0, the
error array is empty, and `np.max` of an empty array raises `ValueError`
(the docstring's promised pair is never produced); the embedding returns
`none` instead of a `(mean_error, max_error)` pair. -/
theorem measure_fidelity_nil_counterexample :
    LinearEncoder.measure_fidelity ([] : List ℝ) = none := by
  rfl

/-- C4 (amended): for every index ≥ 16 the registry lookup
`SemanticLayer.get` returns successfully with no entry (Python `None`,
embedded as `Except.ok none`); it does not raise `UnknownLayer`. -/
theorem get_out_of_range_ok_none (layer_idx : ℕ) (h : 16 ≤ layer_idx) :
    SemanticLayer.get layer_idx = Except.ok none := by
  unfold SemanticLayer.get
  have hfind : (SemanticLayer.LAYERS).find? (fun e => e.1 == layer_idx) = none := by
    apply List.find?_eq_none.mpr
    intro x hx
    simp only [SemanticLayer.LAYERS, List.mem_cons, List.not_mem_nil,
      or_false] at hx
    rcases hx with rfl | rfl | rfl | rfl | rfl | rfl | rfl | rfl | rfl | rfl |
      rfl | rfl | rfl | rfl | rfl | rfl <;> simp <;> omega
  rw [hfind]
  rfl

/-- Witness for C4's theorem at index 16. -/
theorem get_out_of_range_ok_none_witness :
    (16 ≤ 16) ∧ SemanticLayer.get 16 = Except.ok none :=
  ⟨by norm_num, get_out_of_range_ok_none 16 (by norm_num)⟩

/-- C4 counterexample: at index 16 the lookup returns normally with `None`
(`Except.ok none`); it does not fail with an `UnknownLayer` error. -/
theorem get_sixteen_not_error :
    SemanticLayer.get 16 = Except.ok none ∧
    SemanticLayer.get 16 ≠ Except.error SilError.UnknownLayer := by
  have h : SemanticLayer.get 16 = Except.ok none := by rfl
  refine ⟨h, ?_⟩
  rw [h]
  intro hc
  exact Except.noConfusion hc

/-- C5: `apply` skips a recipe entry whose layer index is ≥ 16 (recipe
indices are embedded as naturals, so out of 0–15 means ≥ 16) without
raising — the entry leaves the whole state unchanged — and any slot not
named by an in-range entry of a recipe is unchanged in the result. -/
theorem apply_skip_and_preserve (state : SilState) (k : ℕ) (t : String)
    (rest recipe : List (ℕ × String)) (j : Fin 16)
    (hk : 16 ≤ k)
    (hj : ∀ p ∈ recipe, p.1 < 16 → p.1 ≠ j.val) :
    TransformPipeline.apply state ((k, t) :: rest) =
      TransformPipeline.apply state rest ∧
    (TransformPipeline.apply state recipe).get_layer j = state.get_layer j := by
  constructor
  · simp only [TransformPipeline.apply, List.foldl_cons]
    rw [dif_neg (by omega)]
  · exact apply_get_layer_not_named recipe state j hj

/-- Witness for C5's theorem: the recipe `[(16, "identity")]` on the vacuum
state, observing slot 0. -/
theorem apply_skip_and_preserve_witness :
    ((16 : ℕ) ≤ 16) ∧
    (∀ p ∈ [((16 : ℕ), "identity")], p.1 < 16 → p.1 ≠ (0 : Fin 16).val) ∧
    TransformPipeline.apply SilState.vacuum [((16 : ℕ), "identity")] =
      TransformPipeline.apply SilState.vacuum [] ∧
    (TransformPipeline.apply SilState.vacuum
        [((16 : ℕ), "identity")]).get_layer 0 =
      SilState.vacuum.get_layer 0 :=
  ⟨by norm_num, by decide,
    apply_skip_and_preserve SilState.vacuum 16 "identity" []
      [((16 : ℕ), "identity")] 0 (by norm_num) (by decide)⟩

/-- C6: the orchestrator constructed with configuration "pure" encodes
exactly as the plain linear codec, slot for slot, and any configuration
outside {"pure", "with_processing", "full_semantic"} falls back to the
same "pure" behavior without error. -/
theorem orchestrator_pure_and_fallback (features : List ℝ) (cfg : String)
    (h1 : cfg ≠ "pure") (h2 : cfg ≠ "with_processing")
    (h3 : cfg ≠ "full_semantic") :
    (MlPipeline.mk "pure").encode features = LinearEncoder.encode features ∧
    (MlPipeline.mk cfg).encode features = LinearEncoder.encode features := by
  constructor
  · simp [MlPipeline.encode]
  · simp [MlPipeline.encode, h1, h2, h3]

/-- Witness for C6's theorem at the unrecognized configuration "bogus". -/
theorem orchestrator_pure_and_fallback_witness :
    (("bogus" : String) ≠ "pure") ∧ (("bogus" : String) ≠ "with_processing") ∧
    (("bogus" : String) ≠ "full_semantic") ∧
    ((MlPipeline.mk "pure").encode [(0 : ℝ)] = LinearEncoder.encode [(0 : ℝ)] ∧
     (MlPipeline.mk "bogus").encode [(0 : ℝ)] = LinearEncoder.encode [(0 : ℝ)]) :=
  ⟨by decide, by decide, by decide,
    orchestrator_pure_and_fallback [(0 : ℝ)] "bogus"
      (by decide) (by decide) (by decide)⟩

/-- C8: the five recipe builders produce exactly the listed
`(layer_index, transform_name)` pairs — the spec's `power(1)` is the
string `"power_1"` (similarly `power(2)`/`power(3)`), and
`blend-toward-neutral` is `"mix_neutral"` — the full recipe is their
concatenation in category order, and its 16 entries name every layer
index 0–15 exactly once, in order. -/
theorem recipe_builders_exact :
    TransformPipeline.perception =
      [(0, "identity"), (1, "identity"), (2, "identity"), (3, "identity"),
       (4, "identity")] ∧
    TransformPipeline.processing =
      [(5, "power_1"), (6, "power_1"), (7, "mix_neutral")] ∧
    TransformPipeline.interaction =
      [(8, "mix_neutral"), (9, "mix_neutral"), (10, "mix_neutral")] ∧
    TransformPipeline.emergence = [(11, "power_2"), (12, "power_3")] ∧
    TransformPipeline.meta =
      [(13, "power_2"), (14, "power_2"), (15, "identity")] ∧
    TransformPipeline.full_semantic =
      TransformPipeline.perception ++ TransformPipeline.processing ++
        TransformPipeline.interaction ++ TransformPipeline.emergence ++
        TransformPipeline.meta ∧
    TransformPipeline.full_semantic.map Prod.fst = List.range 16 :=
  ⟨rfl, rfl, rfl, rfl, rfl, rfl, rfl⟩

/-- C9: `by_category` returns the fixed contiguous ascending ranges for
the five categories; their concatenation in category order is exactly
`0..15`, so the union is `{0..15}` and no index lies in two categories. -/
theorem registry_partition :
    SemanticLayer.by_category .PERCEPTION = [0, 1, 2, 3, 4] ∧
    SemanticLayer.by_category .PROCESSING = [5, 6, 7] ∧
    SemanticLayer.by_category .INTERACTION = [8, 9, 10] ∧
    SemanticLayer.by_category .EMERGENCE = [11, 12] ∧
    SemanticLayer.by_category .META = [13, 14, 15] ∧
    SemanticLayer.by_category .PERCEPTION ++
      SemanticLayer.by_category .PROCESSING ++
      SemanticLayer.by_category .INTERACTION ++
      SemanticLayer.by_category .EMERGENCE ++
      SemanticLayer.by_category .META = List.range 16 ∧
    ∀ c1 c2 : SemanticCategory, c1 ≠ c2 →
      ∀ i ∈ SemanticLayer.by_category c1,
        i ∉ SemanticLayer.by_category c2 := by
  refine ⟨rfl, rfl, rfl, rfl, rfl, rfl, ?_⟩
  decide

/-- C10: a recipe entry with an in-range index and a transform name that
is none of the five recognized names does not raise: the dispatch falls
through to the final else branch and writes the slot's existing byte back
unchanged, so the entry behaves exactly like "identity" (and on its own
leaves the state equal to the input). -/
theorem unknown_transform_identity (state : SilState) (i : Fin 16)
    (tname : String) (rest : List (ℕ × String))
    (h1 : tname ≠ "identity") (h2 : tname ≠ "power_1")
    (h3 : tname ≠ "power_2") (h4 : tname ≠ "power_3")
    (h5 : tname ≠ "mix_neutral") :
    TransformPipeline.apply state ((i.val, tname) :: rest) =
      TransformPipeline.apply state ((i.val, "identity") :: rest) ∧
    TransformPipeline.apply state [(i.val, tname)] = state := by
  have key : ∀ (tn : String) (rs : List (ℕ × String)),
      TransformPipeline.dispatch tn (state.get_layer i) = state.get_layer i →
      TransformPipeline.apply state ((i.val, tn) :: rs) =
        TransformPipeline.apply state rs := by
    intro tn rs htn
    simp only [TransformPipeline.apply, List.foldl_cons]
    rw [dif_pos i.isLt]
    simp only [Fin.eta]
    rw [htn, SilState.with_layer_get_self]
  have hdisp : TransformPipeline.dispatch tname (state.get_layer i) =
      state.get_layer i := by
    simp [TransformPipeline.dispatch, h1, h2, h3, h4, h5]
  have hdid : TransformPipeline.dispatch "identity" (state.get_layer i) =
      state.get_layer i := by
    simp [TransformPipeline.dispatch]
  exact ⟨(key tname rest hdisp).trans (key "identity" rest hdid).symm,
    key tname [] hdisp⟩

/-- Witness for C10's theorem: the unknown name "bogus" at slot 0 of the
vacuum state. -/
theorem unknown_transform_identity_witness :
    (("bogus" : String) ≠ "identity") ∧ (("bogus" : String) ≠ "power_1") ∧
    (("bogus" : String) ≠ "power_2") ∧ (("bogus" : String) ≠ "power_3") ∧
    (("bogus" : String) ≠ "mix_neutral") ∧
    (TransformPipeline.apply SilState.vacuum [((0 : Fin 16).val, "bogus")] =
        TransformPipeline.apply SilState.vacuum
          [((0 : Fin 16).val, "identity")] ∧
     TransformPipeline.apply SilState.vacuum [((0 : Fin 16).val, "bogus")] =
        SilState.vacuum) :=
  ⟨by decide, by decide, by decide, by decide, by decide,
    unknown_transform_identity SilState.vacuum 0 "bogus" []
      (by decide) (by decide) (by decide) (by decide) (by decide)⟩
